import Mathlib

/-!
Shallow embedding of the artifact-synchronization script
`my-awesome-site/infra/upload.ts` (with its surrounding program context in
`my-awesome-site/infra/index.ts` and the repository readme), and proofs of
the testable properties stated for it.

The script walks a local directory tree with `fs.readdirSync` / `fs.statSync`,
and for every non-directory entry creates one `gcp.storage.BucketObject`
whose name is the path of the file relative to the root, joined with the
host path separator by `path.join`.  Every object is created with
`contentType = "application/octet-stream"` and
`cacheControl = "public, max-age=3600"`.  The bucket name is read from a
stack reference built as
`getOrganization() ++ "/" ++ <text of the uninvoked getProject function> ++ "/" ++ getStack()`
and the whole sync runs inside `bucketName.apply(async (name) => { if (name) ... })`.
-/

/-- One object-store upload, as assembled by the `new gcp.storage.BucketObject`
call in `uploadDirectory` (upload.ts lines 26-32): the resource and object
name is `objectName`, the source is `FileAsset filePath`, and the two metadata
fields are copied verbatim. -/
structure ObjectSpec where
  bucket : String
  key : String
  sourcePath : String
  contentType : String
  cacheControl : String
deriving DecidableEq, Repr

mutual
/-- A node of the local filesystem tree as seen by the traversal: a leaf file,
or a directory with its children.  (Symbolic links get their own richer
model below, `INode`/`Fs`.) -/
inductive FsNode where
  | file : FsNode
  | dir : FsEntries → FsNode

/-- The entries of a directory, as (name, node) pairs in the order
`fs.readdirSync` returns them. -/
inductive FsEntries where
  | nil : FsEntries
  | cons : String → FsNode → FsEntries → FsEntries
end

/-- node-style `path.join a b` for two segments that contain no separator:
empty parts are dropped, otherwise the parts are joined with the host
path separator `sep` (`/` on posix hosts, `\` on win32 hosts). -/
def pathJoin (sep : String) (a b : String) : String :=
  if a = "" then b else if b = "" then a else a ++ sep ++ b

mutual
/-- Embedding of `uploadDirectory(bucketName, directoryPath, prefix)`
(upload.ts lines 13-37) as the list of uploads it issues, in traversal
order.  `for (const file of files)` walks the entries in order and hands each
to the loop body (`uploadEntry`).  `sep` is the host separator used by
`path.join`. -/
def uploadDirectory (sep bucketName dirPath pfx : String) :
    FsEntries → List ObjectSpec
  | .nil => []
  | .cons file node rest =>
    uploadEntry sep bucketName dirPath pfx file node ++
      uploadDirectory sep bucketName dirPath pfx rest

/-- The body of the `for` loop of `uploadDirectory`: with
`filePath := path.join(directoryPath, file)`, a directory recurses with
`prefix := path.join(prefix, file)`; a file yields one `ObjectSpec` with
`objectName := path.join(prefix, file)`,
`contentType := "application/octet-stream"` (upload.ts line 24) and
`cacheControl := "public, max-age=3600"` (line 31). -/
def uploadEntry (sep bucketName dirPath pfx file : String) :
    FsNode → List ObjectSpec
  | .dir children =>
    uploadDirectory sep bucketName (pathJoin sep dirPath file)
      (pathJoin sep pfx file) children
  | .file =>
    [{ bucket := bucketName
       key := pathJoin sep pfx file
       sourcePath := pathJoin sep dirPath file
       contentType := "application/octet-stream"
       cacheControl := "public, max-age=3600" }]
end

mutual
/-- The relative paths (as segment lists, in traversal order) of the
non-directory nodes of a tree: the specification-side notion "path of the
file relative to the root", compared below with the keys the code
produces. -/
def filePathsRel : FsEntries → List (List String)
  | .nil => []
  | .cons file node rest => filePathsOf file node ++ filePathsRel rest

/-- Relative paths of the non-directory nodes inside one named entry. -/
def filePathsOf (file : String) : FsNode → List (List String)
  | .dir children => (filePathsRel children).map (fun p => file :: p)
  | .file => [[file]]
end



mutual
/-- The same loop as `uploadDirectory`, run with a fallible upload capability:
`fail k = true` means the upload call for object key `k` throws.  The source
loop `await`s each step and has no try/catch, so a throw propagates out of
`uploadDirectory` at once.  The result is the list of keys uploaded before
the throw, paired with the key whose upload threw (`none` when every upload
succeeded). -/
def uploadDirectoryRun (fail : String → Bool)
    (sep bucketName dirPath pfx : String) :
    FsEntries → List String × Option String
  | .nil => ([], none)
  | .cons file node rest =>
    match uploadEntryRun fail sep bucketName dirPath pfx file node with
    | (done, some e) => (done, some e)
    | (done, none) =>
      let r := uploadDirectoryRun fail sep bucketName dirPath pfx rest
      (done ++ r.1, r.2)

/-- Loop body of `uploadDirectoryRun`, matching `uploadEntry`. -/
def uploadEntryRun (fail : String → Bool)
    (sep bucketName dirPath pfx file : String) :
    FsNode → List String × Option String
  | .dir children =>
    uploadDirectoryRun fail sep bucketName (pathJoin sep dirPath file)
      (pathJoin sep pfx file) children
  | .file =>
    let objectName := pathJoin sep pfx file
    if fail objectName then ([], some objectName) else ([objectName], none)
end

/-- The remote bucket, modelled as a map from object key to the object stored
under that key (the store provides per-key atomicity, upload.ts relies on
nothing more). -/
def Store := String → Option ObjectSpec

/-- One `putObject` upsert: create-or-overwrite the object at its key. -/
def upsert (s : Store) (o : ObjectSpec) : Store :=
  fun k => if k = o.key then some o else s k

/-- Applying a run of uploads to the store, in order. -/
def applyRun (s : Store) : List ObjectSpec → Store
  | [] => s
  | o :: rest => applyRun (upsert s o) rest

/-- The last object of the list written to key `k`, if any (helper used to
characterise `applyRun`). -/
def lastWrite (k : String) : List ObjectSpec → Option ObjectSpec
  | [] => none
  | o :: rest =>
    match lastWrite k rest with
    | some o2 => some o2
    | none => if k = o.key then some o else none

/-- The errors a sync run can surface.  `enoent` is the generic filesystem
error object that `fs.readdirSync` throws when the directory does not exist,
and `uploadFailed` is a throwing upload call.  The remaining three names are
modelled from the spec: `RootNotFoundError`, `ResolutionError` and
`MissingOutputError` are named by the specification but defined nowhere in
the code; they are included only so that theorems can compare the error the
code actually raises with the error the spec names. -/
inductive SyncError where
  | enoent (path : String)
  | uploadFailed (key : String)
  | rootNotFound (path : String)
  | resolutionFailed
  | missingOutput (outputName : String)
deriving DecidableEq, Repr

/-- JavaScript truthiness of the resolved output value handed to the
`bucketName.apply` callback: `undefined` (the output is absent) and the empty
string are falsy, every other string is truthy. -/
def truthy : Option String → Bool
  | none => false
  | some s => s != ""

/-- Embedding of the top level of upload.ts (lines 39-48):
`bucketName.apply(async (name) => { if (name) { await uploadDirectory(name, staticSitePath); } })`.
`bucketOutput` is the value of `stack.getOutput("websiteBucket")` delivered
to the callback — `none` models `undefined`, which is what `getOutput`
yields when the referenced deployment lacks that output.  `root` is the
tree at `staticSitePath` (`none` when `../out` does not exist, in which case
the first `fs.readdirSync` throws the generic `enoent` error).  The result
is the list of keys uploaded and the error the run surfaced, if any. -/
def mainRun (fail : String → Bool) (sep : String) (bucketOutput : Option String)
    (root : Option FsEntries) (staticSitePath : String) :
    List String × Option SyncError :=
  if truthy bucketOutput then
    match root with
    | none => ([], some (.enoent staticSitePath))
    | some entries =>
      let r := uploadDirectoryRun fail sep (bucketOutput.getD "")
        staticSitePath "" entries
      (r.1, r.2.map SyncError.uploadFailed)
  else ([], none)

/-- The ambient per-run configuration values of the deployment tooling:
organization, project and stack name of the current run. -/
structure RunConfig where
  organization : String
  project : String
  stack : String
deriving DecidableEq, Repr

/-- Embedding of the StackReference name built on upload.ts line 9 by the
template string with the three holes `getOrganization()`, `getProject`
(NOT invoked: the template interpolates the function value itself, which
JavaScript converts to the source text of that function — a constant of the
SDK, independent of the run configuration, passed here as the parameter
`getProjectText`) and `getStack()`. -/
def stackRefName (getProjectText : String) (cfg : RunConfig) : String :=
  cfg.organization ++ "/" ++ getProjectText ++ "/" ++ cfg.stack

/-- The reference name the claim (and the readme version of the script, which
writes `pulumi.organization` and `pulumi.project`) describes: every component
is the resolved configuration value of the current run. -/
def stackRefNameClaimed (cfg : RunConfig) : String :=
  cfg.organization ++ "/" ++ cfg.project ++ "/" ++ cfg.stack

/-- The output name requested from the referenced deployment
(upload.ts line 10). -/
def requestedOutput : String := "websiteBucket"

/-- A filesystem node for the symbolic-link model: a leaf file, a directory
listing the names of its children, or a symbolic link to an absolute target
path.  Paths are absolute, represented as segment lists. -/
inductive INode where
  | file : INode
  | dir (children : List String) : INode
  | symlink (target : List String) : INode
deriving DecidableEq, Repr

/-- A filesystem with symbolic links: a finite map from absolute path to the
node found there. -/
abbrev Fs := List (List String × INode)

/-- Node lookup by absolute path. -/
def lookupFs (fs : Fs) (p : List String) : Option INode :=
  fs.lookup p

/-- Path resolution as `fs.statSync` performs it: a symbolic link is followed
to its target, unconditionally — there is no containment check against any
root.  `fuel` bounds the length of the link chain (a cyclic chain makes the
real call fail; it exhausts the fuel here).  The result is the resolved
path together with the non-link node found there. -/
def resolveFs (fs : Fs) : Nat → List String → Option (List String × INode)
  | 0, _ => none
  | fuel + 1, p =>
    match lookupFs fs p with
    | some (.symlink t) => resolveFs fs fuel t
    | some n => some (p, n)
    | none => none

/-- One upload as produced by the traversal over a filesystem with links:
the object key, and the resolved path of the file whose bytes
`new pulumi.asset.FileAsset(filePath)` reads. -/
structure FsUpload where
  key : String
  realPath : List String
deriving DecidableEq, Repr

/-- The `uploadDirectory` loop of upload.ts run over a filesystem that may
contain symbolic links, on a posix host (separator `/`).  `fs.readdirSync`
and `fs.statSync` both resolve links, so both go through `resolveFs`; a
child of the directory resolved at `rp` is addressed `rp ++ [file]` (the
operating system resolves the parent prefix of every path).  An entry whose
`statSync` reports a directory is recursed into — wherever the resolved
path lies; an entry reported a file yields one upload.  `fuel` bounds the
recursion depth, since the source recursion need not terminate on cyclic
links. -/
def uploadDirFs (fs : Fs) : Nat → List String → String → List FsUpload
  | 0, _, _ => []
  | fuel + 1, dirPath, pfx =>
    match resolveFs fs (fuel + 1) dirPath with
    | some (rp, .dir names) =>
      names.flatMap (fun file =>
        match resolveFs fs (fuel + 1) (rp ++ [file]) with
        | some (_, .dir _) =>
          uploadDirFs fs fuel (rp ++ [file]) (pathJoin "/" pfx file)
        | some (rp2, .file) => [{ key := pathJoin "/" pfx file, realPath := rp2 }]
        | _ => [])
    | _ => []

/-- A concrete filesystem on which the sync root `/site` contains one entry
`esc`, a symbolic link to the outside directory `/secret`, which contains
the file `passwd.txt`. -/
def fsEscape : Fs :=
  [(["site"], .dir ["esc"]),
   (["site", "esc"], .symlink ["secret"]),
   (["secret"], .dir ["passwd.txt"]),
   (["secret", "passwd.txt"], .file)]



/-- Strips an expected leading character sequence, returning the remainder. -/
def stripLead : List Char → List Char → Option (List Char)
  | [], cs => some cs
  | _ :: _, [] => none
  | p :: ps, c :: cs => if c = p then stripLead ps cs else none

/-- Reads a decimal digit sequence as a number. -/
def digitsAcc : List Char → Nat → Option Nat
  | [], acc => some acc
  | c :: cs, acc =>
    if c.isDigit then digitsAcc cs (acc * 10 + (c.toNat - 48)) else none

/-- The number of seconds in the max-age directive of a cacheControl string
of the form `public, max-age=N` (the only shape the script produces). -/
def maxAgeSeconds (s : String) : Option Nat :=
  match stripLead ("public, max-age=".data) s.data with
  | some (c :: cs) => digitsAcc (c :: cs) 0
  | _ => none

/-- Joining path segments with a separator, the specification-side reading
of "the path relative to the root joined with separators". -/
def joinSegs (sep : String) : List String → String
  | [] => ""
  | [s] => s
  | s :: rest => s ++ sep ++ joinSegs sep rest

/-- The ObjectSpec the script builds for the file at relative segment path
`segs` under prefix `pfx` and directory path `dirPath` (helper for the
characterisation of `uploadDirectory`). -/
def specAt (sep bucketName dirPath pfx : String) (segs : List String) : ObjectSpec :=
  { bucket := bucketName
    key := segs.foldl (pathJoin sep) pfx
    sourcePath := segs.foldl (pathJoin sep) dirPath
    contentType := "application/octet-stream"
    cacheControl := "public, max-age=3600" }

mutual
/-- Characterisation of the traversal: the uploads are exactly one ObjectSpec
per non-directory node, in traversal order, with key (resp. source path) the
relative segment path folded onto the prefix (resp. the directory path) with
`path.join`. -/
theorem uploadDirectory_eq_map :
    ∀ (sep b d p : String) (e : FsEntries),
      uploadDirectory sep b d p e = (filePathsRel e).map (specAt sep b d p)
  | sep, b, d, p, .nil => by simp [uploadDirectory, filePathsRel]
  | sep, b, d, p, .cons f n rest => by
    rw [uploadDirectory, filePathsRel, List.map_append,
      uploadEntry_eq_map sep b d p f n, uploadDirectory_eq_map sep b d p rest]

/-- Loop-body half of `uploadDirectory_eq_map`. -/
theorem uploadEntry_eq_map :
    ∀ (sep b d p f : String) (n : FsNode),
      uploadEntry sep b d p f n = (filePathsOf f n).map (specAt sep b d p)
  | sep, b, d, p, f, .dir children => by
    rw [uploadEntry, filePathsOf,
      uploadDirectory_eq_map sep b (pathJoin sep d f) (pathJoin sep p f) children,
      List.map_map]
    refine List.map_congr_left fun segs _ => ?_
    simp [specAt, Function.comp, List.foldl_cons]
  | sep, b, d, p, f, .file => by
    simp [uploadEntry, filePathsOf, specAt]
end

/-- If a key in the first part of an appended list fails, the kept-prefix of
the whole list is the kept-prefix of the first part. -/
theorem takeWhile_append_of_find?_some (p : String → Bool) :
    ∀ (l1 : List String) (l2 : List String) (e : String), l1.find? p = some e →
      (l1 ++ l2).takeWhile (fun a => !p a) = l1.takeWhile (fun a => !p a)
  | [], _, e, h => by simp [List.find?] at h
  | a :: l1, l2, e, h => by
    by_cases ha : p a
    · simp [List.takeWhile_cons, ha]
    · rw [List.find?_cons_of_neg _ ha] at h
      simp only [List.cons_append, List.takeWhile_cons]
      simp only [ha, Bool.not_false, if_true]
      rw [takeWhile_append_of_find?_some p l1 l2 e h]

mutual
/-- Characterisation of the run with a fallible upload capability: the keys
uploaded are the longest prefix (in traversal order) of the object keys on
which the upload does not throw, and the reported error is the first key on
which it throws, if any. -/
theorem uploadDirectoryRun_eq :
    ∀ (fail : String → Bool) (sep b d p : String) (e : FsEntries),
      uploadDirectoryRun fail sep b d p e =
        (((uploadDirectory sep b d p e).map ObjectSpec.key).takeWhile
            (fun k => !fail k),
          ((uploadDirectory sep b d p e).map ObjectSpec.key).find? fail)
  | fail, sep, b, d, p, .nil => by
    simp [uploadDirectoryRun, uploadDirectory]
  | fail, sep, b, d, p, .cons f n rest => by
    rw [uploadDirectoryRun, uploadEntryRun_eq fail sep b d p f n,
      uploadDirectoryRun_eq fail sep b d p rest, uploadDirectory, List.map_append]
    rcases h1 : ((uploadEntry sep b d p f n).map ObjectSpec.key).find? fail with _ | e1
    · have hall : ∀ k ∈ (uploadEntry sep b d p f n).map ObjectSpec.key,
          (fun k => !fail k) k = true := by
        intro k hk
        simp only [Bool.not_eq_true', Bool.not_eq_false]
        exact Bool.not_eq_true _ ▸ (by simpa using List.find?_eq_none.mp h1 k hk)
      rw [List.find?_append, h1, Option.none_or,
        List.takeWhile_append_of_pos hall,
        List.takeWhile_eq_self_iff.mpr hall]
    · rw [List.find?_append, h1, takeWhile_append_of_find?_some fail _ _ _ h1]
      simp [Option.or]

/-- Loop-body half of `uploadDirectoryRun_eq`. -/
theorem uploadEntryRun_eq :
    ∀ (fail : String → Bool) (sep b d p f : String) (n : FsNode),
      uploadEntryRun fail sep b d p f n =
        (((uploadEntry sep b d p f n).map ObjectSpec.key).takeWhile
            (fun k => !fail k),
          ((uploadEntry sep b d p f n).map ObjectSpec.key).find? fail)
  | fail, sep, b, d, p, f, .dir children => by
    rw [uploadEntryRun, uploadEntry,
      uploadDirectoryRun_eq fail sep b (pathJoin sep d f) (pathJoin sep p f) children]
  | fail, sep, b, d, p, f, .file => by
    by_cases hf : fail (pathJoin sep p f)
    · simp [uploadEntryRun, uploadEntry, hf, List.find?, List.takeWhile]
    · simp [uploadEntryRun, uploadEntry, hf, List.find?, List.takeWhile]
end

/-- The store after a run holds, at each key, the last object the run wrote
there, and is otherwise unchanged. -/
theorem applyRun_apply (k : String) :
    ∀ (l : List ObjectSpec) (s : Store),
      applyRun s l k =
        match lastWrite k l with
        | some o => some o
        | none => s k
  | [], s => rfl
  | o :: rest, s => by
    rw [applyRun, applyRun_apply k rest (upsert s o), lastWrite]
    cases lastWrite k rest with
    | some o2 => rfl
    | none =>
      show upsert s o k = _
      rw [upsert]
      by_cases hk : k = o.key <;> simp [hk]

/-- Appending to a nonempty string keeps it nonempty. -/
theorem append_ne_empty_left (s t : String) (h : s ≠ "") : s ++ t ≠ "" := by
  intro hc
  have hl := congrArg String.length hc
  rw [String.length_append] at hl
  have hz : s.length = 0 := by
    have : String.length "" = 0 := rfl
    omega
  have hs : s = "" := by
    cases s with
    | mk data =>
      cases data with
      | nil => rfl
      | cons a as => simp [String.length] at hz
  exact h hs

/-- Prepending a joined pair distributes over `joinSegs`. -/
theorem joinSegs_cons_append (sep x y : String) (rest : List String) :
    joinSegs sep ((x ++ sep ++ y) :: rest) = x ++ sep ++ joinSegs sep (y :: rest) := by
  cases rest with
  | nil => rfl
  | cons u rest2 => simp [joinSegs, String.append_assoc]

/-- Folding `path.join` from a nonempty accumulator over nonempty segments is
plain separator-joining. -/
theorem foldl_pathJoin_eq_joinSegs (sep : String) :
    ∀ (rest : List String) (a : String), a ≠ "" → (∀ s ∈ rest, s ≠ "") →
      rest.foldl (pathJoin sep) a = joinSegs sep (a :: rest)
  | [], a, _, _ => rfl
  | t :: rest, a, ha, hrest => by
    have ht : t ≠ "" := hrest t (by simp)
    have hat : a ++ sep ++ t ≠ "" :=
      append_ne_empty_left _ _ (append_ne_empty_left _ _ ha)
    rw [List.foldl_cons]
    have hj : pathJoin sep a t = a ++ sep ++ t := by
      rw [pathJoin, if_neg ha, if_neg ht]
    rw [hj, foldl_pathJoin_eq_joinSegs sep rest (a ++ sep ++ t) hat
        (fun s hs => hrest s (by simp [hs])),
      joinSegs_cons_append]
    rfl

/-- Folding `path.join` from the empty prefix over nonempty segments is plain
separator-joining. -/
theorem foldl_pathJoin_empty (sep : String) (segs : List String)
    (h : ∀ s ∈ segs, s ≠ "") :
    segs.foldl (pathJoin sep) "" = joinSegs sep segs := by
  cases segs with
  | nil => rfl
  | cons s rest =>
    rw [List.foldl_cons]
    have hs : s ≠ "" := h s (by simp)
    have h0 : pathJoin sep "" s = s := by rw [pathJoin, if_pos rfl]
    rw [h0, foldl_pathJoin_eq_joinSegs sep rest s hs
      (fun x hx => h x (by simp [hx]))]

/-- C1: the claim says the content type is the standard extension table value
(.html to text/html).  The code instead hardcodes
`contentType = "application/octet-stream"` for every file while importing
(and never using) the mime package the readme version of the script consults:
at the failing input, a tree whose single file is index.html, the uploaded
object carries application/octet-stream and not text/html. -/
theorem contentType_hardcoded_at_index_html :
    (uploadDirectory "/" "site-bucket" "../out" ""
        (.cons "index.html" .file .nil)).map ObjectSpec.contentType =
      ["application/octet-stream"] ∧
    ("application/octet-stream" : String) ≠ "text/html" := by decide

/-- C2 counterexample: a non-HTML object (a .css file, content type
application/octet-stream) receives cacheControl with max-age 3600 seconds —
the one-hour lifetime, not a lifetime on the order of 24 hours (86400
seconds) as the claim requires for every content type other than
text/html. -/
theorem cacheControl_css_counterexample :
    ((uploadDirectory "/" "site-bucket" "../out" ""
        (.cons "style.css" .file .nil)).map
          (fun o => (o.contentType, maxAgeSeconds o.cacheControl))) =
      [("application/octet-stream", some 3600)] ∧ (3600 : Nat) < 86400 := by
  decide

/-- C2 amended: every uploaded object, whatever its content type, receives
the single cacheControl value `public, max-age=3600` (a one-hour lifetime);
there is no two-tier cache policy in the code. -/
theorem cacheControl_always_one_hour (sep b d p : String) (e : FsEntries)
    (o : ObjectSpec) (h : o ∈ uploadDirectory sep b d p e) :
    o.cacheControl = "public, max-age=3600" ∧
      maxAgeSeconds o.cacheControl = some 3600 := by
  rw [uploadDirectory_eq_map] at h
  rcases List.mem_map.mp h with ⟨segs, _, rfl⟩
  refine ⟨rfl, ?_⟩
  show maxAgeSeconds "public, max-age=3600" = some 3600
  decide

/-- Witness for `cacheControl_always_one_hour` at a concrete input. -/
theorem cacheControl_always_one_hour_witness :
    ({ bucket := "site-bucket", key := "a.html", sourcePath := "out/a.html",
       contentType := "application/octet-stream",
       cacheControl := "public, max-age=3600" } : ObjectSpec) ∈
        uploadDirectory "/" "site-bucket" "out" "" (.cons "a.html" .file .nil) ∧
      ({ bucket := "site-bucket", key := "a.html", sourcePath := "out/a.html",
         contentType := "application/octet-stream",
         cacheControl := "public, max-age=3600" } : ObjectSpec).cacheControl =
        "public, max-age=3600" :=
  ⟨by decide,
    (cacheControl_always_one_hour "/" "site-bucket" "out" ""
      (.cons "a.html" .file .nil)
      { bucket := "site-bucket", key := "a.html", sourcePath := "out/a.html",
        contentType := "application/octet-stream",
        cacheControl := "public, max-age=3600" } (by decide)).1⟩

/-- C3 counterexample: the keys are built with `path.join`, which uses the
host path separator.  On a win32 host the nested file assets/img/logo.png
gets the object key joined with backslashes, not the forward-slash key the
claim promises regardless of host convention. -/
theorem key_win32_counterexample :
    (uploadDirectory "\\" "site-bucket" "out" ""
        (.cons "assets" (.dir (.cons "img"
          (.dir (.cons "logo.png" .file .nil)) .nil)) .nil)).map
        ObjectSpec.key = ["assets\\img\\logo.png"] ∧
    ("assets\\img\\logo.png" : String) ≠ "assets/img/logo.png" := by decide

/-- C3 amended: for every non-directory node under the root (with nonempty
entry names, as on a real filesystem) the traversal produces exactly one
upload whose key is the relative path of the node joined with the HOST path
separator — forward slashes exactly when the host separator is `/`;
directories themselves never produce an upload. -/
theorem keys_are_relative_paths_host_sep (sep b d : String) (e : FsEntries)
    (h : ∀ segs ∈ filePathsRel e, ∀ s ∈ segs, s ≠ "") :
    (uploadDirectory sep b d "" e).map ObjectSpec.key =
      (filePathsRel e).map (joinSegs sep) := by
  rw [uploadDirectory_eq_map, List.map_map]
  refine List.map_congr_left fun segs hs => ?_
  exact foldl_pathJoin_empty sep segs (h segs hs)

/-- Witness for `keys_are_relative_paths_host_sep` at a concrete input. -/
theorem keys_are_relative_paths_host_sep_witness :
    (∀ segs ∈ filePathsRel
        (.cons "index.html" .file
          (.cons "assets" (.dir (.cons "logo.png" .file .nil)) .nil)),
      ∀ s ∈ segs, s ≠ "") ∧
    (uploadDirectory "/" "site-bucket" "out" ""
        (.cons "index.html" .file
          (.cons "assets" (.dir (.cons "logo.png" .file .nil)) .nil))).map
        ObjectSpec.key =
      (filePathsRel
        (.cons "index.html" .file
          (.cons "assets" (.dir (.cons "logo.png" .file .nil)) .nil))).map
        (joinSegs "/") :=
  ⟨by decide,
    keys_are_relative_paths_host_sep "/" "site-bucket" "out" _ (by decide)⟩

/-- C4: running the sync twice against an unchanged tree leaves the remote
store exactly as one run leaves it (the store maps each key to at most one
object, so there are no duplicates), and a run whose upload calls all
succeed — in particular the second, re-uploading run — reports no error. -/
theorem sync_twice_eq_sync_once (sep b d p : String) (e : FsEntries)
    (s : Store) :
    applyRun (applyRun s (uploadDirectory sep b d p e))
        (uploadDirectory sep b d p e) =
      applyRun s (uploadDirectory sep b d p e) ∧
    (uploadDirectoryRun (fun _ => false) sep b d p e).2 = none := by
  constructor
  · funext k
    rw [applyRun_apply, applyRun_apply]
    cases lastWrite k (uploadDirectory sep b d p e) with
    | some o => rfl
    | none => rfl
  · rw [uploadDirectoryRun_eq]
    exact List.find?_eq_none.mpr (fun x _ => by simp)

/-- C5 counterexample: on a tree of N = 3 files where exactly the upload of
a.txt is made to fail, the run uploads zero files — not the other N - 1 = 2 —
because the loop has no per-file error collection and the throw aborts the
remaining uploads. -/
theorem per_file_failure_counterexample :
    uploadDirectoryRun (fun k => k == "a.txt") "/" "site-bucket" "out" ""
        (.cons "a.txt" .file (.cons "b.txt" .file (.cons "c.txt" .file .nil))) =
      ([], some "a.txt") ∧
    (uploadDirectory "/" "site-bucket" "out" ""
        (.cons "a.txt" .file (.cons "b.txt" .file
          (.cons "c.txt" .file .nil)))).length = 3 := by decide

/-- C5 amended: a failing upload call aborts the run at that file: exactly
the files strictly before it in traversal order are uploaded, the error that
propagates carries the failed key (the first failing key), and no later
file is attempted. -/
theorem failing_upload_aborts_rest (fail : String → Bool)
    (sep b d p : String) (e : FsEntries) :
    uploadDirectoryRun fail sep b d p e =
      (((uploadDirectory sep b d p e).map ObjectSpec.key).takeWhile
          (fun k => !fail k),
        ((uploadDirectory sep b d p e).map ObjectSpec.key).find? fail) :=
  uploadDirectoryRun_eq fail sep b d p e

/-- C6 counterexample: with the bucket name resolved and the local root
missing, the run fails with the generic filesystem error thrown by
`fs.readdirSync` (modelled `enoent`), issuing zero uploads; this error is
not the RootNotFoundError the claim names — no such error exists in the
code. -/
theorem missing_root_error_counterexample :
    mainRun (fun _ => false) "/" (some "my-bucket") none "../out" =
      ([], some (.enoent "../out")) ∧
    SyncError.enoent "../out" ≠ SyncError.rootNotFound "../out" := by decide

/-- C6 amended: when the bucket name is truthy and the local root does not
exist, the sync fails immediately with the generic filesystem error of
`fs.readdirSync` and issues zero upload calls. -/
theorem missing_root_generic_enoent (fail : String → Bool) (sep : String)
    (b : Option String) (path : String) (h : truthy b = true) :
    mainRun fail sep b none path = ([], some (.enoent path)) := by
  simp [mainRun, h]

/-- Witness for `missing_root_generic_enoent` at a concrete input. -/
theorem missing_root_generic_enoent_witness :
    truthy (some "site-bucket") = true ∧
      mainRun (fun _ => false) "/" (some "site-bucket") none "../out" =
        ([], some (.enoent "../out")) :=
  ⟨by decide, missing_root_generic_enoent (fun _ => false) "/"
    (some "site-bucket") "../out" (by decide)⟩

/-- C7 counterexample: when the referenced deployment lacks the requested
output, `getOutput` delivers undefined to the callback, and the run performs
zero uploads with NO error — it does not fail with MissingOutputError (or
ResolutionError), contrary to the claim. -/
theorem missing_output_no_error_counterexample :
    mainRun (fun _ => false) "/" none
        (some (.cons "index.html" .file .nil)) "../out" = ([], none) ∧
    some (SyncError.missingOutput "websiteBucket") ≠ (none : Option SyncError) ∧
    some SyncError.resolutionFailed ≠ (none : Option SyncError) := by decide

/-- C7 amended: an absent output resolves to undefined, the falsy guard in
the `apply` callback silently skips the whole sync — zero upload calls and no
error; the code defines neither ResolutionError nor MissingOutputError.  (A
stack reference that cannot be resolved at all aborts inside the deployment
engine before this callback runs, likewise issuing zero upload calls.) -/
theorem missing_output_silent_skip (fail : String → Bool) (sep : String)
    (root : Option FsEntries) (path : String) :
    mainRun fail sep none root path = ([], none) := by
  simp [mainRun, truthy]

/-- C8 counterexample: on the filesystem `fsEscape`, whose sync root /site
holds only a symbolic link to the outside directory /secret, the traversal
follows the link and uploads the outside file /secret/passwd.txt (its
resolved source path is not under the root). -/
theorem symlink_escape_counterexample :
    uploadDirFs fsEscape 10 ["site"] "" =
      [{ key := "esc/passwd.txt", realPath := ["secret", "passwd.txt"] }] ∧
    (["site"].isPrefixOf ["secret", "passwd.txt"]) = false := by decide

/-- C8 amended: `fs.statSync`-style resolution follows a symbolic link to its
target unconditionally — there is no containment check against the sync
root — so the traversal can enumerate and upload files outside localRoot, as
it does on `fsEscape`. -/
theorem symlink_followed_unconditionally :
    (∀ (fs : Fs) (fuel : Nat) (p t : List String),
        lookupFs fs p = some (.symlink t) →
        resolveFs fs (fuel + 1) p = resolveFs fs fuel t) ∧
    uploadDirFs fsEscape 10 ["site"] "" =
      [{ key := "esc/passwd.txt", realPath := ["secret", "passwd.txt"] }] := by
  constructor
  · intro fs fuel p t h
    rw [resolveFs, h]
  · decide

/-- Witness for `symlink_followed_unconditionally` at a concrete input. -/
theorem symlink_followed_unconditionally_witness :
    resolveFs fsEscape 4 ["site", "esc"] = resolveFs fsEscape 3 ["secret"] :=
  symlink_followed_unconditionally.1 fsEscape 3 ["site", "esc"] ["secret"]
    (by decide)

/-- C9: the StackReference name does not address the referenced deployment by
the resolved project value.  Because upload.ts line 9 interpolates the
function `pulumi.getProject` without calling it, the project component of
the name is the constant string form of that function: the name the code
builds is invariant under changes of the configured project (first
conjunct), while the name the claim describes is not (second conjunct); the
output name read is indeed `websiteBucket` (third conjunct). -/
theorem stackRefName_ignores_project :
    (∀ (t : String) (c1 c2 : RunConfig), c1.organization = c2.organization →
        c1.stack = c2.stack → stackRefName t c1 = stackRefName t c2) ∧
    stackRefNameClaimed
        { organization := "binarygaragedev",
          project := "my-awesome-site-infra", stack := "dev" } ≠
      stackRefNameClaimed
        { organization := "binarygaragedev",
          project := "other-project", stack := "dev" } ∧
    requestedOutput = "websiteBucket" := by
  refine ⟨?_, ?_, rfl⟩
  · intro t c1 c2 ho hs
    rw [stackRefName, stackRefName, ho, hs]
  · decide

/-- Witness for `stackRefName_ignores_project` at a concrete input. -/
theorem stackRefName_ignores_project_witness :
    stackRefName "function getProject"
        { organization := "binarygaragedev",
          project := "my-awesome-site-infra", stack := "dev" } =
      stackRefName "function getProject"
        { organization := "binarygaragedev",
          project := "other-project", stack := "dev" } :=
  stackRefName_ignores_project.1 "function getProject"
    { organization := "binarygaragedev",
      project := "my-awesome-site-infra", stack := "dev" }
    { organization := "binarygaragedev",
      project := "other-project", stack := "dev" } rfl rfl

/-- C10: when the resolved bucket name is falsy (absent output, i.e.
undefined, or the empty string), the guard in the `apply` callback skips the
whole sync: zero upload calls, no error, and the run terminates as if
successful. -/
theorem falsy_bucket_skips_silently (fail : String → Bool) (sep : String)
    (b : Option String) (root : Option FsEntries) (path : String)
    (h : truthy b = false) :
    mainRun fail sep b root path = ([], none) := by
  simp [mainRun, h]

/-- Witness for `falsy_bucket_skips_silently` at a concrete input. -/
theorem falsy_bucket_skips_silently_witness :
    truthy (some "") = false ∧
      mainRun (fun _ => false) "/" (some "") none "." = ([], none) :=
  ⟨by decide, falsy_bucket_skips_silently (fun _ => false) "/" (some "") none
    "." (by decide)⟩
